import Mathlib

/-!
Verification development for the playlist comparison, diffing and batched
mutation engine of the Minkyu-Spotify repository.

The definitions below are a shallow embedding of the TypeScript source:

* `src/lib/spotify/comparison.ts` — `toComparableTrack`, `createPresenceTrack`,
  `buildPlaylistComparison` (the same diff algorithm is inlined verbatim in
  `comparePlaylistsWithFetcher` in `src/lib/spotify/playlists.ts`);
* `src/lib/spotify/playlists.ts` — `toPlaylistSummary`, `toSpotifyTrack`,
  `chunkArray`, `addTracksToPlaylist`, `removeTracksFromPlaylist`,
  `getFilteredCandidateUris`;
* `src/lib/spotify/client.ts` — `createSpotifyFetcher`,
  `parseRetryAfterHeader`;
* the session undo store — `setUndoEntry`, `consumeUndoEntry`.

JavaScript `Map<string, T>` values are modelled either as total functions with
a default (`String → Nat`, matching `map.get(k) ?? 0`) or as association
lists in insertion order (matching `Map` iteration order).  Network effects
are modelled by passing the sequence of remote responses as an explicit
argument and returning the sequence of issued requests alongside the result.
JavaScript's stable comparator sort (`Array.prototype.sort`) is modelled by
`List.insertionSort`, which is stable.
-/

/-- Raw image record (`SpotifyImageResponse` / `SpotifyImage`). -/
structure SpotifyImage where
  url : String
  height : Option Int
  width : Option Int
deriving DecidableEq, Repr

/-- Internal artist entity (`SpotifyArtist` in `types/spotify.ts`). -/
structure SpotifyArtist where
  id : Option String
  name : String
deriving DecidableEq, Repr

/-- Internal album entity (`SpotifyAlbum` in `types/spotify.ts`). -/
structure SpotifyAlbum where
  id : Option String
  name : String
  images : List SpotifyImage
deriving DecidableEq, Repr

/-- Internal track entity (`SpotifyTrack` in `types/spotify.ts`). -/
structure SpotifyTrack where
  id : Option String
  uri : String
  name : String
  duration_ms : Nat
  is_local : Bool
  artists : List SpotifyArtist
  album : SpotifyAlbum
deriving DecidableEq, Repr

/-- Playlist summary (`PlaylistSummary`), including the fields computed by
`toPlaylistSummary` in `playlists.ts`. -/
structure PlaylistSummary where
  id : String
  name : String
  description : Option String
  images : List SpotifyImage
  ownerName : Option String
  ownerId : Option String
  trackCount : Nat
  externalUrl : Option String
  isCollaborative : Bool
  isOwned : Bool
  isEditable : Bool
deriving DecidableEq, Repr

/-- `PlaylistWithTracks` from `types/spotify.ts`. -/
structure PlaylistWithTracks where
  summary : PlaylistSummary
  tracks : List SpotifyTrack
deriving DecidableEq, Repr

/-- Presence tag of one occurrence (`TrackPresence`). -/
inductive TrackPresence where
  | uniqueToA
  | uniqueToB
  | common
deriving DecidableEq, Repr

/-- `ComparableTrack` from `comparison.ts`. -/
structure ComparableTrack where
  instanceId : String
  uri : String
  name : String
  artists : List String
  durationMs : Nat
  imageUrl : Option String
deriving DecidableEq, Repr

/-- `PlaylistTrackWithPresence` from `comparison.ts`. -/
structure PlaylistTrackWithPresence extends ComparableTrack where
  presence : TrackPresence
deriving DecidableEq, Repr

/-- One side of a `PlaylistComparisonPayload`. -/
structure PlaylistComparisonSide where
  summary : PlaylistSummary
  tracks : List PlaylistTrackWithPresence
deriving DecidableEq, Repr

/-- `PlaylistComparisonPayload` from `comparison.ts`. -/
structure PlaylistComparisonPayload where
  playlistA : PlaylistComparisonSide
  playlistB : PlaylistComparisonSide
  inAOnly : List ComparableTrack
  inBOnly : List ComparableTrack
  inBoth : List ComparableTrack
deriving DecidableEq, Repr

/-- `toComparableTrack` from `comparison.ts`: projects a track to the
comparison-relevant fields; `imageUrl` is `album.images.at(0)?.url ?? null`. -/
def toComparableTrack (track : SpotifyTrack) (instanceId : String) : ComparableTrack :=
  { instanceId := instanceId
    uri := track.uri
    name := track.name
    artists := track.artists.map (fun artist => artist.name)
    durationMs := track.duration_ms
    imageUrl := track.album.images.head?.map (fun image => image.url) }

/-- `createPresenceTrack` from `comparison.ts`. -/
def createPresenceTrack (track : ComparableTrack) (presence : TrackPresence) :
    PlaylistTrackWithPresence :=
  { track with presence := presence }

/-- `map.set(u, (map.get(u) ?? 0) + 1)` on a map modelled as a total function
with default `0`. -/
def incrCount (m : String → Nat) (u : String) : String → Nat :=
  fun v => if v = u then m v + 1 else m v

/-- `map.set(u, (map.get(u) ?? 0) - 1)` (only ever applied when the stored
count is positive). -/
def decrCount (m : String → Nat) (u : String) : String → Nat :=
  fun v => if v = u then m v - 1 else m v

/-- The count-building loop (`for (const track of list) counts.set(track.uri,
(counts.get(track.uri) ?? 0) + 1)`), on the list of URIs. -/
def buildUriCounts (uris : List String) : String → Nat :=
  uris.foldl incrCount (fun _ => 0)

/-- Result of the first pass of `buildPlaylistComparison` (the walk over the
A-side tracks). -/
structure WalkAResult where
  tagged : List PlaylistTrackWithPresence
  aOnly : List ComparableTrack
  both : List ComparableTrack
  matched : String → Nat

/-- First pass of `buildPlaylistComparison` (lines 68–80 of `comparison.ts`):
walk the A-side tracks in order; an occurrence whose URI still has a positive
remaining B-count is tagged `common` (decrementing the remaining count and
recording a matched occurrence), otherwise `uniqueToA`. -/
def walkA : List ComparableTrack → (String → Nat) → (String → Nat) → WalkAResult
  | [], _, matched => ⟨[], [], [], matched⟩
  | track :: rest, bRemaining, matched =>
    if 0 < bRemaining track.uri then
      let r := walkA rest (decrCount bRemaining track.uri) (incrCount matched track.uri)
      ⟨createPresenceTrack track .common :: r.tagged, r.aOnly, track :: r.both, r.matched⟩
    else
      let r := walkA rest bRemaining matched
      ⟨createPresenceTrack track .uniqueToA :: r.tagged, track :: r.aOnly, r.both, r.matched⟩

/-- Result of the second pass (the walk over the B-side tracks). -/
structure WalkBResult where
  tagged : List PlaylistTrackWithPresence
  bOnly : List ComparableTrack

/-- Second pass of `buildPlaylistComparison` (lines 84–95 of `comparison.ts`):
walk the B-side tracks; an occurrence is tagged `common` while fewer `common`
tags have been consumed for its URI than were matched in the first pass,
otherwise `uniqueToB`. -/
def walkB : List ComparableTrack → (String → Nat) → (String → Nat) → WalkBResult
  | [], _, _ => ⟨[], []⟩
  | track :: rest, matched, used =>
    if used track.uri < matched track.uri then
      let r := walkB rest matched (incrCount used track.uri)
      ⟨createPresenceTrack track .common :: r.tagged, r.bOnly⟩
    else
      let r := walkB rest matched used
      ⟨createPresenceTrack track .uniqueToB :: r.tagged, track :: r.bOnly⟩

/-- `buildPlaylistComparison` from `comparison.ts`.  The identical algorithm is
inlined in `comparePlaylistsWithFetcher` (`playlists.ts`, lines 228–283). -/
def buildPlaylistComparison (playlistA playlistB : PlaylistWithTracks) :
    PlaylistComparisonPayload :=
  let playlistATracks :=
    playlistA.tracks.mapIdx (fun index track => toComparableTrack track ("A-" ++ toString index))
  let playlistBTracks :=
    playlistB.tracks.mapIdx (fun index track => toComparableTrack track ("B-" ++ toString index))
  let playlistBRemainingCounts := buildUriCounts (playlistBTracks.map (fun track => track.uri))
  let a := walkA playlistATracks playlistBRemainingCounts (fun _ => 0)
  let b := walkB playlistBTracks a.matched (fun _ => 0)
  { playlistA := ⟨playlistA.summary, a.tagged⟩
    playlistB := ⟨playlistB.summary, b.tagged⟩
    inAOnly := a.aOnly
    inBOnly := b.bOnly
    inBoth := a.both }

/-- Number of occurrences of URI `u` in a list of URIs. -/
def uriCountS (uris : List String) (u : String) : Nat :=
  uris.countP (fun s => s == u)

/-- Number of occurrences of URI `u` in a list of comparable tracks. -/
def uriCountC (l : List ComparableTrack) (u : String) : Nat :=
  l.countP (fun t => t.uri == u)

/-- Number of occurrences of URI `u` in a list of tracks. -/
def uriCountT (l : List SpotifyTrack) (u : String) : Nat :=
  l.countP (fun t => t.uri == u)

theorem foldl_incrCount (l : List String) (m : String → Nat) (u : String) :
    (l.foldl incrCount m) u = m u + uriCountS l u := by
  induction l generalizing m with
  | nil => simp [uriCountS]
  | cons a l ih =>
    simp only [List.foldl_cons, ih, uriCountS, List.countP_cons]
    by_cases h : a = u
    · simp only [incrCount, h, beq_iff_eq, if_pos rfl, if_true]
      omega
    · have h' : ¬ u = a := fun hh => h hh.symm
      simp only [incrCount, h, h', beq_iff_eq, if_neg h', if_false]
      omega

theorem buildUriCounts_eq (uris : List String) (u : String) :
    buildUriCounts uris u = uriCountS uris u := by
  simpa using foldl_incrCount uris (fun _ => 0) u

theorem uriCountS_map (l : List ComparableTrack) (u : String) :
    uriCountS (l.map (fun t => t.uri)) u = uriCountC l u := by
  rw [uriCountS, uriCountC, List.countP_map]
  rfl

theorem uriCountC_mapIdx (l : List SpotifyTrack) (f : Nat → String) (u : String) :
    uriCountC (l.mapIdx (fun i t => toComparableTrack t (f i))) u = uriCountT l u := by
  induction l generalizing f with
  | nil => simp [uriCountC, uriCountT]
  | cons t rest ih =>
    simp only [List.mapIdx_cons, uriCountC, uriCountT, List.countP_cons] at *
    rw [ih (fun i => f (i + 1))]
    rfl

theorem uriCountC_mapIdx_take (l : List SpotifyTrack) (f : Nat → String) (n : Nat) (u : String) :
    uriCountC ((l.mapIdx (fun i t => toComparableTrack t (f i))).take n) u
      = uriCountT (l.take n) u := by
  induction l generalizing f n with
  | nil => simp [uriCountC, uriCountT]
  | cons t rest ih =>
    cases n with
    | zero => simp [uriCountC, uriCountT]
    | succ n =>
      simp only [List.mapIdx_cons, List.take_succ_cons, uriCountC, uriCountT,
        List.countP_cons] at *
      rw [ih (fun i => f (i + 1)) n]
      rfl

theorem walkA_tagged_length (l : List ComparableTrack) (b m : String → Nat) :
    (walkA l b m).tagged.length = l.length := by
  induction l generalizing b m with
  | nil => rfl
  | cons t rest ih =>
    by_cases h : 0 < b t.uri
    · simp [walkA, h, ih]
    · simp [walkA, h, ih]

theorem walkB_tagged_length (l : List ComparableTrack) (m u : String → Nat) :
    (walkB l m u).tagged.length = l.length := by
  induction l generalizing m u with
  | nil => rfl
  | cons t rest ih =>
    by_cases h : u t.uri < m t.uri
    · simp [walkB, h, ih]
    · simp [walkB, h, ih]

theorem uriCountC_cons_self (t : ComparableTrack) (rest : List ComparableTrack) :
    0 < uriCountC (t :: rest) t.uri := by
  simp [uriCountC, List.countP_cons]

theorem walkA_all_common (l : List ComparableTrack) (b m : String → Nat)
    (h : ∀ u, uriCountC l u ≤ b u) :
    walkA l b m = ⟨l.map (fun t => createPresenceTrack t .common), [], l,
      fun u => m u + uriCountC l u⟩ := by
  induction l generalizing b m with
  | nil =>
    exact congrArg (WalkAResult.mk [] [] []) (funext fun u => by simp [uriCountC])
  | cons t rest ih =>
    have ht : 0 < b t.uri := lt_of_lt_of_le (uriCountC_cons_self t rest) (h t.uri)
    have hrest : ∀ u, uriCountC rest u ≤ decrCount b t.uri u := by
      intro u
      have hu := h u
      simp only [uriCountC, List.countP_cons] at hu ⊢
      by_cases hq : t.uri = u
      · simp only [decrCount, hq, beq_iff_eq, if_pos rfl, if_true] at hu ⊢
        omega
      · have hq' : ¬ u = t.uri := fun hc => hq hc.symm
        simp only [decrCount, beq_iff_eq, if_neg hq, if_neg hq'] at hu ⊢
        omega
    simp only [walkA, if_pos ht, ih (decrCount b t.uri) (incrCount m t.uri) hrest,
      List.map_cons, WalkAResult.mk.injEq, true_and]
    funext u
    simp only [incrCount, uriCountC, List.countP_cons]
    by_cases hq : u = t.uri
    · have hq' : (t.uri == u) = true := by simp [beq_iff_eq, hq.symm]
      simp only [if_pos hq, hq', if_true]
      omega
    · have hq' : ¬ (t.uri == u) = true := by simp [beq_iff_eq]; exact fun hc => hq hc.symm
      simp only [if_neg hq, if_neg hq']
      omega

theorem walkB_all_common (l : List ComparableTrack) (m used : String → Nat)
    (h : ∀ u, used u + uriCountC l u ≤ m u) :
    walkB l m used = ⟨l.map (fun t => createPresenceTrack t .common), []⟩ := by
  induction l generalizing used with
  | nil => simp [walkB]
  | cons t rest ih =>
    have ht : used t.uri < m t.uri := by
      have := h t.uri
      have hc := uriCountC_cons_self t rest
      omega
    have hrest : ∀ u, incrCount used t.uri u + uriCountC rest u ≤ m u := by
      intro u
      have hu := h u
      simp only [uriCountC, List.countP_cons] at hu ⊢
      by_cases hq : u = t.uri
      · have hq' : (t.uri == u) = true := by simp [beq_iff_eq, hq.symm]
        simp only [incrCount, if_pos hq, hq', if_true] at hu ⊢
        omega
      · have hq' : ¬ (t.uri == u) = true := by simp [beq_iff_eq]; exact fun hc => hq hc.symm
        simp only [incrCount, if_neg hq, if_neg hq'] at hu ⊢
        omega
    simp only [walkB, if_pos ht, ih (incrCount used t.uri) hrest, List.map_cons]

theorem walkA_presence_counts (l : List ComparableTrack) (b m : String → Nat) :
    ((walkA l b m).tagged.countP (fun t => t.presence == TrackPresence.uniqueToA))
      + ((walkA l b m).tagged.countP (fun t => t.presence == TrackPresence.common))
      = l.length
    ∧ (walkA l b m).tagged.countP (fun t => t.presence == TrackPresence.uniqueToB) = 0 := by
  induction l generalizing b m with
  | nil => simp [walkA]
  | cons t rest ih =>
    by_cases hb : 0 < b t.uri
    · have h := ih (decrCount b t.uri) (incrCount m t.uri)
      simp only [walkA, if_pos hb, List.countP_cons, createPresenceTrack,
        beq_iff_eq, List.length_cons] at h ⊢
      simp only [reduceCtorEq, if_false, if_true, if_pos rfl]
      omega
    · have h := ih b m
      simp only [walkA, if_neg hb, List.countP_cons, createPresenceTrack,
        beq_iff_eq, List.length_cons] at h ⊢
      simp only [reduceCtorEq, if_false, if_true, if_pos rfl]
      omega

theorem walkB_presence_counts (l : List ComparableTrack) (m used : String → Nat) :
    ((walkB l m used).tagged.countP (fun t => t.presence == TrackPresence.uniqueToB))
      + ((walkB l m used).tagged.countP (fun t => t.presence == TrackPresence.common))
      = l.length
    ∧ (walkB l m used).tagged.countP (fun t => t.presence == TrackPresence.uniqueToA) = 0 := by
  induction l generalizing used with
  | nil => simp [walkB]
  | cons t rest ih =>
    by_cases hb : used t.uri < m t.uri
    · have h := ih (incrCount used t.uri)
      simp only [walkB, if_pos hb, List.countP_cons, createPresenceTrack,
        beq_iff_eq, List.length_cons] at h ⊢
      simp only [reduceCtorEq, if_false, if_true, if_pos rfl]
      omega
    · have h := ih used
      simp only [walkB, if_neg hb, List.countP_cons, createPresenceTrack,
        beq_iff_eq, List.length_cons] at h ⊢
      simp only [reduceCtorEq, if_false, if_true, if_pos rfl]
      omega

/-- Spec-side characterization of the first diff pass, written from the
claim's words: walking the A side with `prior` holding the occurrences
already walked, an occurrence is tagged `common` exactly when the number of
earlier A-occurrences of its URI is still below B's occurrence count of that
URI (`bCounts`), i.e. the first `bCounts u` A-occurrences of a URI `u` claim
the matches and the excess occurrences are tagged `uniqueToA`. -/
def specFirstMatchTags (bCounts : String → Nat) :
    List ComparableTrack → List ComparableTrack → List PlaylistTrackWithPresence
  | _, [] => []
  | prior, t :: rest =>
    createPresenceTrack t
        (if uriCountC prior t.uri < bCounts t.uri then .common else .uniqueToA)
      :: specFirstMatchTags bCounts (prior ++ [t]) rest

theorem uriCountC_append (l₁ l₂ : List ComparableTrack) (u : String) :
    uriCountC (l₁ ++ l₂) u = uriCountC l₁ u + uriCountC l₂ u := by
  simp [uriCountC, List.countP_append]

theorem walkA_tagged_eq_spec (l : List ComparableTrack) (prior : List ComparableTrack)
    (bCounts : String → Nat) (m : String → Nat) :
    (walkA l (fun u => bCounts u - uriCountC prior u) m).tagged
      = specFirstMatchTags bCounts prior l := by
  induction l generalizing prior m with
  | nil => rfl
  | cons t rest ih =>
    have hone : uriCountC [t] t.uri = 1 := by simp [uriCountC, List.countP_cons]
    by_cases hb : 0 < bCounts t.uri - uriCountC prior t.uri
    · have hcond : uriCountC prior t.uri < bCounts t.uri := by omega
      have hmap : decrCount (fun u => bCounts u - uriCountC prior u) t.uri
          = fun u => bCounts u - uriCountC (prior ++ [t]) u := by
        funext u
        by_cases hq : u = t.uri
        · subst hq
          simp only [decrCount, eq_self_iff_true, if_true, uriCountC_append, hone]
          omega
        · have hq' : ¬ (t.uri == u) = true := by
            simp only [beq_iff_eq]
            exact fun hc => hq hc.symm
          have hzero : uriCountC [t] u = 0 := by
            simp only [uriCountC, List.countP_cons, List.countP_nil, if_neg hq']
          simp only [decrCount, if_neg hq, uriCountC_append, hzero, Nat.add_zero]
      simp only [walkA, if_pos hb, specFirstMatchTags, if_pos hcond, hmap,
        ih (prior ++ [t]) (incrCount m t.uri)]
    · have hcond : ¬ uriCountC prior t.uri < bCounts t.uri := by omega
      have hmap : (fun u => bCounts u - uriCountC prior u)
          = fun u => bCounts u - uriCountC (prior ++ [t]) u := by
        funext u
        by_cases hq : u = t.uri
        · subst hq
          simp only [uriCountC_append, hone]
          omega
        · have hq' : ¬ (t.uri == u) = true := by
            simp only [beq_iff_eq]
            exact fun hc => hq hc.symm
          have hzero : uriCountC [t] u = 0 := by
            simp only [uriCountC, List.countP_cons, List.countP_nil, if_neg hq']
          simp only [uriCountC_append, hzero, Nat.add_zero]
      simp only [walkA, if_neg hb, specFirstMatchTags, if_neg hcond]
      rw [← ih (prior ++ [t]) m, ← hmap]

theorem buildUriCounts_comparable (l : List SpotifyTrack) (f : Nat → String) (u : String) :
    buildUriCounts ((l.mapIdx (fun i t => toComparableTrack t (f i))).map (fun t => t.uri)) u
      = uriCountT l u := by
  rw [buildUriCounts_eq, uriCountS_map, uriCountC_mapIdx]

theorem buildPlaylistComparison_playlistA_tracks (pa pb : PlaylistWithTracks) :
    (buildPlaylistComparison pa pb).playlistA.tracks
      = specFirstMatchTags (uriCountT pb.tracks) []
          (pa.tracks.mapIdx (fun index track => toComparableTrack track ("A-" ++ toString index))) := by
  have hfun :
      buildUriCounts
        ((pb.tracks.mapIdx (fun index track =>
          toComparableTrack track ("B-" ++ toString index))).map (fun t => t.uri))
      = fun u => uriCountT pb.tracks u - uriCountC ([] : List ComparableTrack) u := by
    funext u
    rw [buildUriCounts_comparable]
    simp [uriCountC]
  simp only [buildPlaylistComparison]
  rw [hfun]
  exact walkA_tagged_eq_spec _ _ _ _

theorem map_presence_common (l : List ComparableTrack) :
    ((l.map (fun t => createPresenceTrack t .common)).map (fun t => t.presence))
      = List.replicate l.length TrackPresence.common := by
  induction l with
  | nil => rfl
  | cons t rest ih =>
    simp only [List.map_cons, List.length_cons, List.replicate_succ]
    rw [ih]
    rfl

/-- Sample album used by the concrete test tracks. -/
def sampleAlbum : SpotifyAlbum := ⟨none, "Sample Album", []⟩

/-- Concrete track with URI `spotify:track:X`. -/
def sampleTrackX : SpotifyTrack :=
  ⟨some "idX", "spotify:track:X", "Track X", 100, false, [], sampleAlbum⟩

/-- Concrete track with URI `spotify:track:Y`. -/
def sampleTrackY : SpotifyTrack :=
  ⟨some "idY", "spotify:track:Y", "Track Y", 200, false, [], sampleAlbum⟩

/-- Concrete playlist summary used by the sample playlists. -/
def samplePlaylistSummary : PlaylistSummary :=
  ⟨"pl", "Sample Playlist", none, [], none, none, 0, none, false, false, false⟩

/-- Sample playlist A = [X, X, Y]. -/
def samplePlaylistA : PlaylistWithTracks :=
  ⟨samplePlaylistSummary, [sampleTrackX, sampleTrackX, sampleTrackY]⟩

/-- Sample playlist B = [X]. -/
def samplePlaylistB : PlaylistWithTracks :=
  ⟨samplePlaylistSummary, [sampleTrackX]⟩

/-- C2: for A = [X, X, Y] and B = [X], the diff tags exactly one A-occurrence
of X as common, one A-occurrence of X and the Y occurrence as uniqueToA, and
the single B-occurrence of X as common, with one derived-list entry per
occurrence (never deduplicated by URI); in general the A-side tagged list is
exactly `specFirstMatchTags`: the first A-occurrences of a URI (in positional
order) claim the B-side matches and the excess A-occurrences are tagged
uniqueToA. -/
theorem diff_duplicate_multiplicity :
    (((buildPlaylistComparison samplePlaylistA samplePlaylistB).playlistA.tracks.map
        (fun t => (t.instanceId, t.uri, t.presence)))
      = [("A-0", "spotify:track:X", TrackPresence.common),
         ("A-1", "spotify:track:X", TrackPresence.uniqueToA),
         ("A-2", "spotify:track:Y", TrackPresence.uniqueToA)]
    ∧ ((buildPlaylistComparison samplePlaylistA samplePlaylistB).playlistB.tracks.map
        (fun t => (t.instanceId, t.uri, t.presence)))
      = [("B-0", "spotify:track:X", TrackPresence.common)]
    ∧ ((buildPlaylistComparison samplePlaylistA samplePlaylistB).inAOnly.map
        (fun t => (t.instanceId, t.uri)))
      = [("A-1", "spotify:track:X"), ("A-2", "spotify:track:Y")]
    ∧ ((buildPlaylistComparison samplePlaylistA samplePlaylistB).inBoth.map
        (fun t => (t.instanceId, t.uri)))
      = [("A-0", "spotify:track:X")]
    ∧ (buildPlaylistComparison samplePlaylistA samplePlaylistB).inBOnly = [])
    ∧ ∀ pa pb : PlaylistWithTracks,
        (buildPlaylistComparison pa pb).playlistA.tracks
          = specFirstMatchTags (uriCountT pb.tracks) []
              (pa.tracks.mapIdx
                (fun index track => toComparableTrack track ("A-" ++ toString index))) :=
  ⟨by decide, buildPlaylistComparison_playlistA_tracks⟩

/-- C7: diffing a playlist against itself yields empty uniqueToA/uniqueToB
derived lists, a common list whose length equals the track count, and every
occurrence on both sides tagged common. -/
theorem self_diff_all_common (p : PlaylistWithTracks) :
    (buildPlaylistComparison p p).inAOnly = []
    ∧ (buildPlaylistComparison p p).inBOnly = []
    ∧ (buildPlaylistComparison p p).inBoth.length = p.tracks.length
    ∧ ((buildPlaylistComparison p p).playlistA.tracks.map (fun t => t.presence))
        = List.replicate p.tracks.length TrackPresence.common
    ∧ ((buildPlaylistComparison p p).playlistB.tracks.map (fun t => t.presence))
        = List.replicate p.tracks.length TrackPresence.common := by
  simp only [buildPlaylistComparison]
  have hcountA : ∀ u,
      uriCountC (p.tracks.mapIdx
        (fun index track => toComparableTrack track ("A-" ++ toString index))) u
      = uriCountT p.tracks u := fun u => uriCountC_mapIdx p.tracks _ u
  have hcountB : ∀ u,
      uriCountC (p.tracks.mapIdx
        (fun index track => toComparableTrack track ("B-" ++ toString index))) u
      = uriCountT p.tracks u := fun u => uriCountC_mapIdx p.tracks _ u
  have hle : ∀ u,
      uriCountC (p.tracks.mapIdx
        (fun index track => toComparableTrack track ("A-" ++ toString index))) u
      ≤ buildUriCounts ((p.tracks.mapIdx
          (fun index track => toComparableTrack track ("B-" ++ toString index))).map
            (fun t => t.uri)) u := by
    intro u
    rw [buildUriCounts_comparable, hcountA]
  rw [walkA_all_common _ _ _ hle]
  have hleB : ∀ u,
      (fun _ => 0) u + uriCountC (p.tracks.mapIdx
        (fun index track => toComparableTrack track ("B-" ++ toString index))) u
      ≤ ((fun _ => 0) u + uriCountC (p.tracks.mapIdx
          (fun index track => toComparableTrack track ("A-" ++ toString index))) u) := by
    intro u
    rw [hcountA, hcountB]
  rw [walkB_all_common _ _ _ hleB]
  refine ⟨rfl, rfl, ?_, ?_, ?_⟩
  · simp [List.length_mapIdx]
  · rw [map_presence_common]
    simp [List.length_mapIdx]
  · rw [map_presence_common]
    simp [List.length_mapIdx]

/-- C8: the diff conserves occurrence counts per side — on the A side the
number of occurrences tagged uniqueToA plus the number tagged common equals
`length A` (and no A occurrence is tagged uniqueToB), symmetrically for the B
side; each input occurrence yields exactly one tagged entry. -/
theorem diff_presence_conservation (pa pb : PlaylistWithTracks) :
    ((buildPlaylistComparison pa pb).playlistA.tracks.countP
        (fun t => t.presence == TrackPresence.uniqueToA))
      + ((buildPlaylistComparison pa pb).playlistA.tracks.countP
        (fun t => t.presence == TrackPresence.common))
      = pa.tracks.length
    ∧ ((buildPlaylistComparison pa pb).playlistA.tracks.countP
        (fun t => t.presence == TrackPresence.uniqueToB)) = 0
    ∧ ((buildPlaylistComparison pa pb).playlistB.tracks.countP
        (fun t => t.presence == TrackPresence.uniqueToB))
      + ((buildPlaylistComparison pa pb).playlistB.tracks.countP
        (fun t => t.presence == TrackPresence.common))
      = pb.tracks.length
    ∧ ((buildPlaylistComparison pa pb).playlistB.tracks.countP
        (fun t => t.presence == TrackPresence.uniqueToA)) = 0
    ∧ (buildPlaylistComparison pa pb).playlistA.tracks.length = pa.tracks.length
    ∧ (buildPlaylistComparison pa pb).playlistB.tracks.length = pb.tracks.length := by
  simp only [buildPlaylistComparison]
  have ha := walkA_presence_counts
    (pa.tracks.mapIdx (fun index track => toComparableTrack track ("A-" ++ toString index)))
    (buildUriCounts ((pb.tracks.mapIdx
      (fun index track => toComparableTrack track ("B-" ++ toString index))).map
        (fun t => t.uri)))
    (fun _ => 0)
  have hb := walkB_presence_counts
    (pb.tracks.mapIdx (fun index track => toComparableTrack track ("B-" ++ toString index)))
    (walkA
      (pa.tracks.mapIdx (fun index track => toComparableTrack track ("A-" ++ toString index)))
      (buildUriCounts ((pb.tracks.mapIdx
        (fun index track => toComparableTrack track ("B-" ++ toString index))).map
          (fun t => t.uri)))
      (fun _ => 0)).matched
    (fun _ => 0)
  simp only [List.length_mapIdx] at ha hb
  refine ⟨ha.1, ha.2, hb.1, hb.2, ?_, ?_⟩
  · rw [walkA_tagged_length, List.length_mapIdx]
  · rw [walkB_tagged_length, List.length_mapIdx]

/-- `SpotifyPlaylistOwner` from `playlists.ts`. -/
structure SpotifyPlaylistOwner where
  id : Option String
  display_name : Option String
deriving DecidableEq, Repr

/-- `SpotifyPlaylistItem` from `playlists.ts` (`tracks.total` flattened to
`tracksTotal`, `external_urls?.spotify` flattened to `externalUrl`). -/
structure SpotifyPlaylistItem where
  id : String
  name : String
  description : Option String
  images : List SpotifyImage
  owner : SpotifyPlaylistOwner
  collaborative : Option Bool
  tracksTotal : Nat
  externalUrl : Option String
deriving DecidableEq, Repr

/-- `toPlaylistSummary` from `playlists.ts` (lines 85–103).  `currentUserId`
is the optional second argument; JavaScript's truthiness check
`currentUserId ? ownerId === currentUserId : false` is false when the
argument is absent or the empty string. -/
def toPlaylistSummary (playlist : SpotifyPlaylistItem) (currentUserId : Option String) :
    PlaylistSummary :=
  let ownerId := playlist.owner.id
  let isCollaborative := playlist.collaborative.getD false
  let isOwned : Bool :=
    match currentUserId with
    | none => false
    | some uid => if uid = "" then false else ownerId == some uid
  { id := playlist.id
    name := playlist.name
    description := playlist.description
    images := playlist.images
    ownerName := playlist.owner.display_name
    ownerId := ownerId
    trackCount := playlist.tracksTotal
    externalUrl := playlist.externalUrl
    isCollaborative := isCollaborative
    isOwned := isOwned
    isEditable := isOwned || isCollaborative }

/-- Raw artist record inside a playlist track item (optional fields defaulted
defensively by `toSpotifyTrack`). -/
structure SpotifyRawArtist where
  id : Option String
  name : Option String
deriving DecidableEq, Repr

/-- Raw album record inside a playlist track item. -/
structure SpotifyRawAlbum where
  id : Option String
  name : Option String
  images : Option (List SpotifyImage)
deriving DecidableEq, Repr

/-- Raw track body of a `SpotifyPlaylistTrackItem`. -/
structure SpotifyRawTrack where
  id : Option String
  uri : String
  name : String
  duration_ms : Nat
  is_local : Bool
  artists : Option (List SpotifyRawArtist)
  album : Option SpotifyRawAlbum
deriving DecidableEq, Repr

/-- `SpotifyPlaylistTrackItem` from `playlists.ts`: `track` is `null` for
deleted/unavailable placeholders. -/
structure SpotifyPlaylistTrackItem where
  track : Option SpotifyRawTrack
deriving DecidableEq, Repr

/-- `toSpotifyTrack` from `playlists.ts` (lines 105–126): `undefined` for a
missing track body, otherwise a `SpotifyTrack` with the defensive defaults
(`?? "Unknown artist"`, `?? "Unknown album"`, `Array.isArray` guards). -/
def toSpotifyTrack (item : SpotifyPlaylistTrackItem) : Option SpotifyTrack :=
  match item.track with
  | none => none
  | some t =>
    let album := t.album.getD ⟨none, some "Unknown album", some []⟩
    let artists := t.artists.getD []
    some
      { id := t.id
        uri := t.uri
        name := t.name
        duration_ms := t.duration_ms
        is_local := t.is_local
        artists := artists.map (fun artist => ⟨artist.id, artist.name.getD "Unknown artist"⟩)
        album := ⟨album.id, album.name.getD "Unknown album", album.images.getD []⟩ }

/-- `fetchAllPlaylistTracks` from `playlists.ts` (lines 128–159), with the
pagination chain flattened into one item list: every page's items are mapped
through `toSpotifyTrack` in order and missing track bodies are filtered out. -/
def fetchAllPlaylistTracks (items : List SpotifyPlaylistTrackItem) : List SpotifyTrack :=
  items.filterMap toSpotifyTrack

/-- `SpotifyPlaylistResponse` from `playlists.ts`: the playlist record plus
its complete track item list (initial page followed by all next pages). -/
structure SpotifyPlaylistResponse where
  item : SpotifyPlaylistItem
  trackItems : List SpotifyPlaylistTrackItem
deriving DecidableEq, Repr

/-- `comparePlaylistsWithFetcher` from `playlists.ts` (lines 209–284), with
the two playlist fetches abstracted to their responses.  The summaries are
built with `toPlaylistSummary(response)` — no current user id — and the diff
is the algorithm shared with `buildPlaylistComparison`. -/
def comparePlaylistsWithFetcher (ra rb : SpotifyPlaylistResponse) : PlaylistComparisonPayload :=
  buildPlaylistComparison
    ⟨toPlaylistSummary ra.item none, fetchAllPlaylistTracks ra.trackItems⟩
    ⟨toPlaylistSummary rb.item none, fetchAllPlaylistTracks rb.trackItems⟩

/-- C9: `comparePlaylistsWithFetcher` builds both summaries without a current
user id, so both have `isOwned = false` and `isEditable` equal to the
playlist's collaborative flag alone. -/
theorem compare_summaries_not_owned (ra rb : SpotifyPlaylistResponse) :
    (comparePlaylistsWithFetcher ra rb).playlistA.summary.isOwned = false
    ∧ (comparePlaylistsWithFetcher ra rb).playlistB.summary.isOwned = false
    ∧ (comparePlaylistsWithFetcher ra rb).playlistA.summary.isEditable
        = ra.item.collaborative.getD false
    ∧ (comparePlaylistsWithFetcher ra rb).playlistB.summary.isEditable
        = rb.item.collaborative.getD false := by
  refine ⟨rfl, rfl, ?_, ?_⟩
  · simp [comparePlaylistsWithFetcher, buildPlaylistComparison, toPlaylistSummary]
  · simp [comparePlaylistsWithFetcher, buildPlaylistComparison, toPlaylistSummary]

/-- The candidate filtering loop of `getFilteredCandidateUris`
(`playlists.ts`, lines 412–421): a candidate URI with a positive remaining
existing count is consumed (count decremented) and dropped; otherwise it is
kept. -/
def getFilteredCandidateUrisLoop (remainingExistingCounts : String → Nat) :
    List String → List String
  | [] => []
  | uri :: rest =>
    if 0 < remainingExistingCounts uri then
      getFilteredCandidateUrisLoop (decrCount remainingExistingCounts uri) rest
    else
      uri :: getFilteredCandidateUrisLoop remainingExistingCounts rest

/-- `getFilteredCandidateUris` from `playlists.ts` (lines 387–424), with the
target playlist fetch and pagination abstracted to its existing track list:
empty candidate lists short-circuit to `[]`; otherwise the existing tracks'
URI multiplicities are built and the candidates are filtered by the loop. -/
def getFilteredCandidateUris (existingTracks : List SpotifyTrack)
    (candidateUris : List String) : List String :=
  if candidateUris = [] then []
  else
    getFilteredCandidateUrisLoop
      (buildUriCounts (existingTracks.map (fun t => t.uri))) candidateUris

theorem uriCountS_map_track (l : List SpotifyTrack) (u : String) :
    uriCountS (l.map (fun t => t.uri)) u = uriCountT l u := by
  rw [uriCountS, uriCountT, List.countP_map]
  rfl

theorem getFilteredCandidateUrisLoop_count (l : List String) (m : String → Nat) (u : String) :
    uriCountS (getFilteredCandidateUrisLoop m l) u = uriCountS l u - m u := by
  induction l generalizing m with
  | nil => simp [getFilteredCandidateUrisLoop, uriCountS]
  | cons c rest ih =>
    by_cases hm : 0 < m c
    · rw [getFilteredCandidateUrisLoop, if_pos hm, ih (decrCount m c)]
      by_cases hq : c = u
      · subst hq
        have hd : decrCount m c c = m c - 1 := by simp [decrCount]
        have hcnt : uriCountS (c :: rest) c = uriCountS rest c + 1 := by
          simp [uriCountS, List.countP_cons]
        rw [hd, hcnt]
        omega
      · have hq2 : ¬ u = c := fun h => hq h.symm
        have hd : decrCount m c u = m u := by simp [decrCount, hq2]
        have hq' : ¬ (c == u) = true := by
          simp only [beq_iff_eq]
          exact hq
        have hcnt : uriCountS (c :: rest) u = uriCountS rest u := by
          simp [uriCountS, List.countP_cons, hq]
        rw [hd, hcnt]
    · have hm0 : m c = 0 := Nat.eq_zero_of_not_pos hm
      rw [getFilteredCandidateUrisLoop, if_neg hm]
      by_cases hq : c = u
      · subst hq
        have h1 : uriCountS (c :: getFilteredCandidateUrisLoop m rest) c
            = uriCountS (getFilteredCandidateUrisLoop m rest) c + 1 := by
          simp [uriCountS, List.countP_cons]
        have h2 : uriCountS (c :: rest) c = uriCountS rest c + 1 := by
          simp [uriCountS, List.countP_cons]
        rw [h1, h2, ih m]
        omega
      · have hq' : ¬ (c == u) = true := by
          simp only [beq_iff_eq]
          exact hq
        have h1 : uriCountS (c :: getFilteredCandidateUrisLoop m rest) u
            = uriCountS (getFilteredCandidateUrisLoop m rest) u := by
          simp [uriCountS, List.countP_cons, hq]
        have h2 : uriCountS (c :: rest) u = uriCountS rest u := by
          simp [uriCountS, List.countP_cons, hq]
        rw [h1, h2, ih m]

theorem getFilteredCandidateUrisLoop_sublist (l : List String) (m : String → Nat) :
    List.Sublist (getFilteredCandidateUrisLoop m l) l := by
  induction l generalizing m with
  | nil => exact List.Sublist.refl []
  | cons c rest ih =>
    by_cases hm : 0 < m c
    · rw [getFilteredCandidateUrisLoop, if_pos hm]
      exact List.Sublist.cons c (ih (decrCount m c))
    · rw [getFilteredCandidateUrisLoop, if_neg hm]
      exact List.Sublist.cons₂ c (ih m)

/-- C6: `getFilteredCandidateUris` is occurrence-aware — only the excess
candidate occurrences beyond the target's URI multiplicity survive, in
candidate order: for target [X, X] and candidates [X, X, X] the result is
exactly [X]; an empty candidate list yields []; in general the result is a
sublist of the candidates whose per-URI occurrence count is the candidate
count minus the target count (truncated at zero). -/
theorem filtered_candidates_occurrence_aware :
    (getFilteredCandidateUris [sampleTrackX, sampleTrackX]
        ["spotify:track:X", "spotify:track:X", "spotify:track:X"]
      = ["spotify:track:X"])
    ∧ (∀ existingTracks : List SpotifyTrack,
        getFilteredCandidateUris existingTracks [] = [])
    ∧ ∀ (existingTracks : List SpotifyTrack) (candidateUris : List String) (u : String),
        (uriCountS (getFilteredCandidateUris existingTracks candidateUris) u
          = uriCountS candidateUris u - uriCountT existingTracks u)
        ∧ List.Sublist (getFilteredCandidateUris existingTracks candidateUris)
            candidateUris := by
  refine ⟨by decide, fun _ => rfl, fun existingTracks candidateUris u => ?_⟩
  by_cases hc : candidateUris = []
  · subst hc
    exact ⟨by simp [getFilteredCandidateUris, uriCountS], by
      simp [getFilteredCandidateUris]⟩
  · constructor
    · rw [getFilteredCandidateUris, if_neg hc, getFilteredCandidateUrisLoop_count,
        buildUriCounts_eq, uriCountS_map_track]
    · rw [getFilteredCandidateUris, if_neg hc]
      exact getFilteredCandidateUrisLoop_sublist _ _

/-- One `(uri, position)` entry as stored in undo entries and passed to the
remove path (`position` is a JavaScript number, modelled as an integer). -/
structure TrackEntry where
  uri : String
  position : Int
deriving DecidableEq, Repr

/-- `UndoEntry` from the session undo store module. -/
structure UndoEntry where
  undoToken : String
  playlistId : String
  entries : List TrackEntry
  snapshotId : Option String
  createdAt : Int
deriving DecidableEq, Repr

/-- The process-wide `sessionUndoStore` map, keyed by the session key (the
hash of the access token), modelled as a partial map. -/
def UndoStore : Type := String → Option UndoEntry

/-- Point update of the undo store (`Map.set` / `Map.delete`). -/
def updateUndoStore (store : UndoStore) (key : String) (entry : Option UndoEntry) :
    UndoStore :=
  fun k => if k = key then entry else store k

/-- `setUndoEntry` from the undo store module: a no-op returning `null` for
empty entry lists; otherwise unconditionally overwrites the session's slot
with a fresh entry and returns the new token.  `crypto.randomUUID()` and
`Date.now()` are modelled as the explicit `undoToken` and `nowMs` arguments,
and the sha256 session key as the explicit `sessionKey`. -/
def setUndoEntry (store : UndoStore) (sessionKey : String) (playlistId : String)
    (entries : List TrackEntry) (snapshotId : Option String)
    (undoToken : String) (nowMs : Int) : UndoStore × Option String :=
  if entries.length = 0 then
    (store, none)
  else
    (updateUndoStore store sessionKey
      (some ⟨undoToken, playlistId, entries, snapshotId, nowMs⟩),
     some undoToken)

/-- `consumeUndoEntry` from the undo store module: returns the stored entries
and snapshot id only when an entry exists for the session and both the stored
token and the stored playlist id equal the supplied ones, deleting the slot;
otherwise a no-op returning `null`. -/
def consumeUndoEntry (store : UndoStore) (sessionKey : String) (playlistId : String)
    (undoToken : String) : UndoStore × Option (List TrackEntry × Option String) :=
  match store sessionKey with
  | none => (store, none)
  | some entry =>
    if entry.undoToken ≠ undoToken then
      (store, none)
    else if entry.playlistId ≠ playlistId then
      (store, none)
    else
      (updateUndoStore store sessionKey none, some (entry.entries, entry.snapshotId))

/-- C3: single-slot, single-use undo semantics.  `setUndoEntry` with a
non-empty entry list unconditionally overwrites the session's slot;
`consumeUndoEntry` succeeds exactly when both the supplied token and playlist
id match the stored entry, and deletes the slot on success.  Consequently,
after a second `setUndoEntry` with a fresh token, consuming with the first
token returns `null`, consuming with the second token returns the second
payload, and a repeated consume with that same valid token returns `null`. -/
theorem undo_single_slot (store : UndoStore) (sessionKey : String)
    (p1 p2 : String) (e1 e2 : List TrackEntry) (s1 s2 : Option String)
    (t1 t2 : String) (now1 now2 : Int)
    (he1 : e1.length ≠ 0) (he2 : e2.length ≠ 0) (ht : t1 ≠ t2) :
    ((setUndoEntry store sessionKey p1 e1 s1 t1 now1).1 sessionKey
        = some ⟨t1, p1, e1, s1, now1⟩)
    ∧ ((setUndoEntry (setUndoEntry store sessionKey p1 e1 s1 t1 now1).1
          sessionKey p2 e2 s2 t2 now2).1 sessionKey
        = some ⟨t2, p2, e2, s2, now2⟩)
    ∧ ((consumeUndoEntry (setUndoEntry (setUndoEntry store sessionKey p1 e1 s1 t1 now1).1
          sessionKey p2 e2 s2 t2 now2).1 sessionKey p1 t1).2 = none)
    ∧ ((consumeUndoEntry (setUndoEntry (setUndoEntry store sessionKey p1 e1 s1 t1 now1).1
          sessionKey p2 e2 s2 t2 now2).1 sessionKey p2 t2).2 = some (e2, s2))
    ∧ ((consumeUndoEntry (consumeUndoEntry (setUndoEntry
          (setUndoEntry store sessionKey p1 e1 s1 t1 now1).1
          sessionKey p2 e2 s2 t2 now2).1 sessionKey p2 t2).1 sessionKey p2 t2).2 = none)
    ∧ (∀ (st : UndoStore) (key pid tok : String),
        (consumeUndoEntry st key pid tok).2
          = match st key with
            | none => none
            | some entry =>
              if entry.undoToken = tok ∧ entry.playlistId = pid then
                some (entry.entries, entry.snapshotId)
              else none)
    ∧ (∀ (st : UndoStore) (key pid tok : String) (entry : UndoEntry),
        st key = some entry → entry.undoToken = tok → entry.playlistId = pid →
          (consumeUndoEntry st key pid tok).1 key = none) := by
  have hset1 : (setUndoEntry store sessionKey p1 e1 s1 t1 now1).1 sessionKey
      = some ⟨t1, p1, e1, s1, now1⟩ := by
    rw [setUndoEntry, if_neg he1]
    simp [updateUndoStore]
  have hset2 : (setUndoEntry (setUndoEntry store sessionKey p1 e1 s1 t1 now1).1
      sessionKey p2 e2 s2 t2 now2).1 sessionKey = some ⟨t2, p2, e2, s2, now2⟩ := by
    rw [setUndoEntry, if_neg he2]
    simp [updateUndoStore]
  refine ⟨hset1, hset2, ?_, ?_, ?_, ?_, ?_⟩
  · rw [consumeUndoEntry]
    rw [hset2]
    have : (⟨t2, p2, e2, s2, now2⟩ : UndoEntry).undoToken ≠ t1 := fun h => ht h.symm
    simp [this]
  · rw [consumeUndoEntry]
    rw [hset2]
    simp
  · have hcons : (consumeUndoEntry (setUndoEntry
        (setUndoEntry store sessionKey p1 e1 s1 t1 now1).1
        sessionKey p2 e2 s2 t2 now2).1 sessionKey p2 t2).1 sessionKey = none := by
      rw [consumeUndoEntry, hset2]
      simp [updateUndoStore]
    rw [consumeUndoEntry, hcons]
  · intro st key pid tok
    rw [consumeUndoEntry]
    cases hst : st key with
    | none => rfl
    | some entry =>
      by_cases h1 : entry.undoToken = tok
      · by_cases h2 : entry.playlistId = pid
        · simp [h1, h2]
        · simp [h1, h2]
      · simp [h1]
  · intro st key pid tok entry hst h1 h2
    rw [consumeUndoEntry, hst]
    simp [h1, h2, updateUndoStore]

/-- `chunkArray` from `playlists.ts` (lines 286–294): slices of `chunkSize`
consecutive items.  (For `chunkSize = 0` the JavaScript loop would not
terminate; the model returns `[]` in that unused case — all call sites pass
100.) -/
def chunkArray {α : Type} : List α → Nat → List (List α)
  | [], _ => []
  | _ :: _, 0 => []
  | a :: tl, n + 1 =>
    (a :: tl).take (n + 1) :: chunkArray ((a :: tl).drop (n + 1)) (n + 1)
termination_by items _ => items.length
decreasing_by
  simp only [List.length_drop, List.length_cons]
  omega

theorem chunkArray_flatten {α : Type} (n : Nat) :
    ∀ l : List α, (chunkArray l (n + 1)).flatten = l := by
  have haux : ∀ (k : Nat) (l : List α), l.length ≤ k →
      (chunkArray l (n + 1)).flatten = l := by
    intro k
    induction k with
    | zero =>
      intro l hl
      have h0 : l = [] := List.eq_nil_of_length_eq_zero (Nat.le_zero.mp hl)
      subst h0
      simp [chunkArray]
    | succ k ih =>
      intro l hl
      match l with
      | [] => simp [chunkArray]
      | a :: tl =>
        rw [chunkArray, List.flatten_cons,
          ih ((a :: tl).drop (n + 1)) (by
            simp only [List.length_drop, List.length_cons]
            simp only [List.length_cons] at hl
            omega)]
        exact List.take_append_drop (n + 1) (a :: tl)
  exact fun l => haux l.length l le_rfl

theorem chunkArray_length_le {α : Type} (n : Nat) :
    ∀ l : List α, ∀ c ∈ chunkArray l (n + 1), c.length ≤ n + 1 := by
  have haux : ∀ (k : Nat) (l : List α), l.length ≤ k →
      ∀ c ∈ chunkArray l (n + 1), c.length ≤ n + 1 := by
    intro k
    induction k with
    | zero =>
      intro l hl c hc
      have h0 : l = [] := List.eq_nil_of_length_eq_zero (Nat.le_zero.mp hl)
      subst h0
      simp [chunkArray] at hc
    | succ k ih =>
      intro l hl c hc
      match l with
      | [] => simp [chunkArray] at hc
      | a :: tl =>
        rw [chunkArray] at hc
        rcases List.mem_cons.mp hc with hhead | htail
        · subst hhead
          rw [List.length_take]
          exact min_le_left _ _
        · refine ih ((a :: tl).drop (n + 1)) ?_ c htail
          simp only [List.length_drop, List.length_cons]
          simp only [List.length_cons] at hl
          omega
  exact fun l => haux l.length l le_rfl

theorem chunkArray_ne_nil {α : Type} (n : Nat) :
    ∀ l : List α, ∀ c ∈ chunkArray l (n + 1), c ≠ [] := by
  have haux : ∀ (k : Nat) (l : List α), l.length ≤ k →
      ∀ c ∈ chunkArray l (n + 1), c ≠ [] := by
    intro k
    induction k with
    | zero =>
      intro l hl c hc
      have h0 : l = [] := List.eq_nil_of_length_eq_zero (Nat.le_zero.mp hl)
      subst h0
      simp [chunkArray] at hc
    | succ k ih =>
      intro l hl c hc
      match l with
      | [] => simp [chunkArray] at hc
      | a :: tl =>
        rw [chunkArray] at hc
        rcases List.mem_cons.mp hc with hhead | htail
        · subst hhead
          simp
        · refine ih ((a :: tl).drop (n + 1)) ?_ c htail
          simp only [List.length_drop, List.length_cons]
          simp only [List.length_cons] at hl
          omega
  exact fun l => haux l.length l le_rfl

/-- Result of `addTracksToPlaylist`, extended with the list of issued write
request bodies (one URI list per `POST .../tracks` call, in order). -/
structure AddResult where
  requests : List (List String)
  addedCount : Nat
  addedUris : List String
  addedEntries : List TrackEntry
  snapshotId : Option String
deriving DecidableEq, Repr

/-- The chunk loop of `addTracksToPlaylist` (`playlists.ts`, lines 311–330):
one write request per non-empty chunk; `addedEntries` is computed only when a
starting position was supplied; the snapshot id is replaced by each
response.  `responses call` is the `snapshot_id` returned by the
`call`-th write request. -/
def addBatchesLoop (responses : Nat → String) :
    List (List String) → Option Int → Option String → Nat →
      List (List String) × List String × List TrackEntry × Option String
  | [], _, snapshotId, _ => ([], [], [], snapshotId)
  | chunk :: rest, nextPosition, snapshotId, call =>
    if chunk = [] then
      addBatchesLoop responses rest nextPosition snapshotId call
    else
      let newSnapshotId := responses call
      let entries : List TrackEntry :=
        match nextPosition with
        | some p => chunk.mapIdx (fun index uri => ⟨uri, p + (index : Int)⟩)
        | none => []
      let r := addBatchesLoop responses rest
        (nextPosition.map (fun p => p + (chunk.length : Int))) (some newSnapshotId) (call + 1)
      (chunk :: r.1, chunk ++ r.2.1, entries ++ r.2.2.1, r.2.2.2)

/-- `addTracksToPlaylist` from `playlists.ts` (lines 296–333): empty input is
a no-op; otherwise the URIs are chunked into batches of at most 100 and one
write request is issued per chunk, sequentially. -/
def addTracksToPlaylist (uris : List String) (startingPosition : Option Int)
    (responses : Nat → String) : AddResult :=
  if uris.length = 0 then ⟨[], 0, [], [], none⟩
  else
    let r := addBatchesLoop responses (chunkArray uris 100) startingPosition none 0
    ⟨r.1, r.2.1.length, r.2.1, r.2.2.1, r.2.2.2⟩

theorem addBatchesLoop_requests (responses : Nat → String) (chunks : List (List String))
    (nextPosition : Option Int) (snapshotId : Option String) (call : Nat)
    (h : ∀ c ∈ chunks, c ≠ []) :
    (addBatchesLoop responses chunks nextPosition snapshotId call).1 = chunks := by
  induction chunks generalizing nextPosition snapshotId call with
  | nil => rfl
  | cons chunk rest ih =>
    have hchunk : chunk ≠ [] := h chunk (List.mem_cons_self chunk rest)
    simp only [addBatchesLoop, if_neg hchunk]
    rw [ih _ _ _ (fun c hc => h c (List.mem_cons_of_mem chunk hc))]

theorem addBatchesLoop_addedUris (responses : Nat → String) (chunks : List (List String))
    (nextPosition : Option Int) (snapshotId : Option String) (call : Nat)
    (h : ∀ c ∈ chunks, c ≠ []) :
    (addBatchesLoop responses chunks nextPosition snapshotId call).2.1 = chunks.flatten := by
  induction chunks generalizing nextPosition snapshotId call with
  | nil => rfl
  | cons chunk rest ih =>
    have hchunk : chunk ≠ [] := h chunk (List.mem_cons_self chunk rest)
    simp only [addBatchesLoop, if_neg hchunk, List.flatten_cons]
    rw [ih _ _ _ (fun c hc => h c (List.mem_cons_of_mem chunk hc))]

/-- Comparator of the entry sort in `removeTracksFromPlaylist`
(`(a, b) => a.position - b.position`, i.e. ascending position). -/
def entryLE (a b : TrackEntry) : Prop := a.position ≤ b.position

instance : DecidableRel entryLE := fun a b => Int.decLe a.position b.position

instance : IsTotal TrackEntry entryLE := ⟨fun a b => Int.le_total a.position b.position⟩

instance : IsTrans TrackEntry entryLE := ⟨fun _ _ _ hab hbc => le_trans hab hbc⟩

/-- `Array.prototype.sort` with the position comparator, modelled by the
stable `insertionSort`. -/
def sortEntriesByPosition (entries : List TrackEntry) : List TrackEntry :=
  List.insertionSort entryLE entries

/-- `positions.sort((a, b) => a - b)` on one URI group. -/
def sortPositions (positions : List Int) : List Int :=
  List.insertionSort (fun a b => a ≤ b) positions

/-- One step of filling `tracksPayloadMap` (`playlists.ts`, lines 355–360):
`positions = map.get(uri) ?? []; positions.push(adjusted); map.set(uri,
positions)` on a JavaScript `Map` modelled as an association list in
insertion order. -/
def upsertPosition (m : List (String × List Int)) (uri : String) (pos : Int) :
    List (String × List Int) :=
  match m with
  | [] => [(uri, [pos])]
  | (u, ps) :: rest =>
    if u = uri then (u, ps ++ [pos]) :: rest
    else (u, ps) :: upsertPosition rest uri pos

/-- The `batchEntries.forEach` fold building `tracksPayloadMap`: each entry
contributes its position minus `processed` (the number of entries removed in
prior batches). -/
def buildTracksPayloadMap (batchEntries : List TrackEntry) (processed : Nat) :
    List (String × List Int) :=
  batchEntries.foldl
    (fun m entry => upsertPosition m entry.uri (entry.position - (processed : Int))) []

/-- One `DELETE .../tracks` request body: the grouped `(uri, positions)`
payload and the optional `snapshot_id` included in the body. -/
structure RemoveRequest where
  tracks : List (String × List Int)
  snapshotId : Option String
deriving DecidableEq, Repr

/-- The `while (processed < sortedEntries.length)` loop of
`removeTracksFromPlaylist` (`playlists.ts`, lines 350–382), with the
successive batches (`sortedEntries.slice(processed, processed + 100)`)
presented as a chunk list and `processed` accumulated as the sum of the
previous batch lengths.  `responses call` is the `snapshot_id` returned by
the `call`-th delete request; the running snapshot id is sent in each
request body and replaced by each response. -/
def removeBatchesLoop (responses : Nat → String) :
    List (List TrackEntry) → Nat → Option String → Nat →
      List RemoveRequest × List String × Option String
  | [], _, currentSnapshotId, _ => ([], [], currentSnapshotId)
  | batchEntries :: rest, processed, currentSnapshotId, call =>
    let tracksPayload :=
      (buildTracksPayloadMap batchEntries processed).map
        (fun p => (p.1, sortPositions p.2))
    let newSnapshotId := responses call
    let r := removeBatchesLoop responses rest (processed + batchEntries.length)
      (some newSnapshotId) (call + 1)
    (⟨tracksPayload, currentSnapshotId⟩ :: r.1,
     (tracksPayload.flatMap (fun p => List.replicate p.2.length p.1)) ++ r.2.1,
     r.2.2)

/-- Result of `removeTracksFromPlaylist`, extended with the list of issued
delete request bodies, in order. -/
structure RemoveResult where
  requests : List RemoveRequest
  removedCount : Nat
  removedUris : List String
  snapshotId : Option String
deriving DecidableEq, Repr

/-- `removeTracksFromPlaylist` from `playlists.ts` (lines 335–385): empty
input is a no-op; otherwise the entries are sorted by position ascending and
processed in batches of at most 100. -/
def removeTracksFromPlaylist (entries : List TrackEntry) (snapshotId : Option String)
    (responses : Nat → String) : RemoveResult :=
  if entries.length = 0 then ⟨[], 0, [], snapshotId⟩
  else
    let sortedEntries := sortEntriesByPosition entries
    let r := removeBatchesLoop responses (chunkArray sortedEntries 100) 0 snapshotId 0
    ⟨r.1, r.2.1.length, r.2.1, r.2.2⟩

/-- Ungrouping of a request payload back into one `(uri, position)` pair per
occurrence. -/
def ungroupPayload (tracks : List (String × List Int)) : List (String × Int) :=
  tracks.flatMap (fun p => p.2.map (fun q => (p.1, q)))

/-- Spec-side description of the positions sent per batch: each entry of a
batch is sent at its raw position minus `removedSoFar`, the number of entries
removed in all prior batches, with the same offset for every entry of the
batch. -/
def adjustedBatches : List (List TrackEntry) → Nat → List (List (String × Int))
  | [], _ => []
  | batch :: rest, removedSoFar =>
    batch.map (fun e => (e.uri, e.position - (removedSoFar : Int)))
      :: adjustedBatches rest (removedSoFar + batch.length)

theorem ungroupPayload_upsert (m : List (String × List Int)) (u : String) (q : Int) :
    (ungroupPayload (upsertPosition m u q)).Perm (ungroupPayload m ++ [(u, q)]) := by
  induction m with
  | nil => exact List.Perm.refl _
  | cons p rest ih =>
    by_cases hv : p.1 = u
    · rw [show upsertPosition (p :: rest) u q = (p.1, p.2 ++ [q]) :: rest from by
        rw [upsertPosition]
        simp [hv]]
      simp only [ungroupPayload, List.flatMap_cons, List.map_append, List.map_cons,
        List.map_nil, List.append_assoc]
      refine List.Perm.append_left _ ?_
      rw [hv]
      exact List.perm_append_comm
    · rw [show upsertPosition (p :: rest) u q = (p.1, p.2) :: upsertPosition rest u q from by
        rw [upsertPosition]
        simp [hv]]
      simp only [ungroupPayload, List.flatMap_cons, List.append_assoc]
      exact List.Perm.append_left _ ih

theorem ungroupPayload_foldl_upsert (processed : Nat) (batch : List TrackEntry) :
    ∀ m : List (String × List Int),
      (ungroupPayload (batch.foldl
          (fun m entry => upsertPosition m entry.uri (entry.position - (processed : Int))) m)).Perm
        (ungroupPayload m
          ++ batch.map (fun e => (e.uri, e.position - (processed : Int)))) := by
  induction batch with
  | nil =>
    intro m
    simp only [List.foldl_nil, List.map_nil, List.append_nil]
    exact List.Perm.refl _
  | cons e rest ih =>
    intro m
    simp only [List.foldl_cons, List.map_cons]
    refine (ih (upsertPosition m e.uri (e.position - (processed : Int)))).trans ?_
    refine (List.Perm.append_right _ (ungroupPayload_upsert m e.uri _)).trans ?_
    rw [List.append_assoc]
    exact List.Perm.refl _

theorem ungroupPayload_buildMap (processed : Nat) (batch : List TrackEntry) :
    (ungroupPayload (buildTracksPayloadMap batch processed)).Perm
      (batch.map (fun e => (e.uri, e.position - (processed : Int)))) := by
  have h := ungroupPayload_foldl_upsert processed batch []
  simpa [ungroupPayload] using h

theorem ungroup_sorted_perm (m : List (String × List Int)) :
    (ungroupPayload (m.map (fun p => (p.1, sortPositions p.2)))).Perm (ungroupPayload m) := by
  induction m with
  | nil => exact List.Perm.refl _
  | cons p rest ih =>
    simp only [List.map_cons, ungroupPayload, List.flatMap_cons]
    exact ((List.perm_insertionSort _ p.2).map _).append ih

theorem ungroupPayload_request_perm (processed : Nat) (batch : List TrackEntry) :
    (ungroupPayload ((buildTracksPayloadMap batch processed).map
        (fun p => (p.1, sortPositions p.2)))).Perm
      (batch.map (fun e => (e.uri, e.position - (processed : Int)))) :=
  (ungroup_sorted_perm _).trans (ungroupPayload_buildMap processed batch)

theorem ungroupPayload_length (tracks : List (String × List Int)) :
    (ungroupPayload tracks).length = (tracks.map (fun p => p.2.length)).sum := by
  induction tracks with
  | nil => rfl
  | cons p rest ih =>
    simp only [ungroupPayload, List.flatMap_cons, List.length_append, List.length_map,
      List.map_cons, List.sum_cons] at *
    omega

theorem flatMap_replicate_eq_map_fst (tracks : List (String × List Int)) :
    tracks.flatMap (fun p => List.replicate p.2.length p.1)
      = (ungroupPayload tracks).map Prod.fst := by
  induction tracks with
  | nil => rfl
  | cons p rest ih =>
    simp only [List.flatMap_cons, ungroupPayload, List.map_append, List.map_map]
    rw [show (Prod.fst ∘ fun q => (p.1, q)) = fun _ => p.1 from rfl, List.map_const']
    rw [ih]
    rfl

theorem removeBatchesLoop_requests_length (responses : Nat → String)
    (chunks : List (List TrackEntry)) :
    ∀ (processed : Nat) (snap : Option String) (call : Nat),
      (removeBatchesLoop responses chunks processed snap call).1.length = chunks.length := by
  induction chunks with
  | nil => intro processed snap call; rfl
  | cons batch rest ih =>
    intro processed snap call
    simp only [removeBatchesLoop, List.length_cons]
    rw [ih]

theorem removeBatchesLoop_forall2 (responses : Nat → String)
    (chunks : List (List TrackEntry)) :
    ∀ (processed : Nat) (snap : Option String) (call : Nat),
      List.Forall₂ (fun req adjusted => (ungroupPayload req.tracks).Perm adjusted)
        (removeBatchesLoop responses chunks processed snap call).1
        (adjustedBatches chunks processed) := by
  induction chunks with
  | nil => intro processed snap call; exact List.Forall₂.nil
  | cons batch rest ih =>
    intro processed snap call
    simp only [removeBatchesLoop, adjustedBatches]
    exact List.Forall₂.cons (ungroupPayload_request_perm processed batch) (ih _ _ _)

theorem removeBatchesLoop_removedUris (responses : Nat → String)
    (chunks : List (List TrackEntry)) :
    ∀ (processed : Nat) (snap : Option String) (call : Nat),
      ((removeBatchesLoop responses chunks processed snap call).2.1).Perm
        (chunks.flatten.map (fun e => e.uri)) := by
  induction chunks with
  | nil => intro processed snap call; exact List.Perm.refl _
  | cons batch rest ih =>
    intro processed snap call
    simp only [removeBatchesLoop, List.flatten_cons, List.map_append]
    refine List.Perm.append ?_ (ih _ _ _)
    rw [flatMap_replicate_eq_map_fst]
    refine ((ungroupPayload_request_perm processed batch).map Prod.fst).trans ?_
    rw [List.map_map]
    exact List.Perm.refl _

theorem removeBatchesLoop_removedUris_indep (responses responses2 : Nat → String)
    (chunks : List (List TrackEntry)) :
    ∀ (processed : Nat) (snap snap2 : Option String) (call call2 : Nat),
      (removeBatchesLoop responses chunks processed snap call).2.1
        = (removeBatchesLoop responses2 chunks processed snap2 call2).2.1 := by
  induction chunks with
  | nil => intro processed snap snap2 call call2; rfl
  | cons batch rest ih =>
    intro processed snap snap2 call call2
    simp only [removeBatchesLoop]
    rw [ih]

theorem removeBatchesLoop_request_size (responses : Nat → String)
    (chunks : List (List TrackEntry)) :
    ∀ (processed : Nat) (snap : Option String) (call : Nat),
      (∀ b ∈ chunks, b.length ≤ 100) →
        ∀ req ∈ (removeBatchesLoop responses chunks processed snap call).1,
          ((req.tracks.map (fun p => p.2.length)).sum ≤ 100) := by
  induction chunks with
  | nil =>
    intro processed snap call hb req hreq
    simp [removeBatchesLoop] at hreq
  | cons batch rest ih =>
    intro processed snap call hb req hreq
    simp only [removeBatchesLoop] at hreq
    rcases List.mem_cons.mp hreq with hhead | htail
    · subst hhead
      rw [← ungroupPayload_length]
      rw [(ungroupPayload_request_perm processed batch).length_eq]
      rw [List.length_map]
      exact hb batch (List.mem_cons_self batch rest)
    · exact ih _ _ _ (fun b hbm => hb b (List.mem_cons_of_mem batch hbm)) req htail

/-- C1: `removeTracksFromPlaylist` sorts the entries by position ascending,
processes them in batches of at most 100 (the successive chunks of the sorted
list), and each issued request sends, for every entry of its batch, the raw
position minus the number of entries removed in prior batches — the same
prior-batch offset for all entries of a batch, with no intra-batch
adjustment (`adjustedBatches` accumulates exactly that offset). -/
theorem removeTracks_position_shift (entries : List TrackEntry) (snapshotId : Option String)
    (responses : Nat → String) :
    List.Sorted entryLE (sortEntriesByPosition entries)
    ∧ (sortEntriesByPosition entries).Perm entries
    ∧ (removeTracksFromPlaylist entries snapshotId responses).requests.length
        = (chunkArray (sortEntriesByPosition entries) 100).length
    ∧ List.Forall₂ (fun req adjusted => (ungroupPayload req.tracks).Perm adjusted)
        (removeTracksFromPlaylist entries snapshotId responses).requests
        (adjustedBatches (chunkArray (sortEntriesByPosition entries) 100) 0) := by
  refine ⟨List.sorted_insertionSort entryLE entries,
    List.perm_insertionSort entryLE entries, ?_, ?_⟩
  · by_cases h : entries.length = 0
    · have he : entries = [] := List.eq_nil_of_length_eq_zero h
      subst he
      simp [removeTracksFromPlaylist, sortEntriesByPosition, List.insertionSort, chunkArray]
    · simp only [removeTracksFromPlaylist, if_neg h]
      exact removeBatchesLoop_requests_length responses _ 0 snapshotId 0
  · by_cases h : entries.length = 0
    · have he : entries = [] := List.eq_nil_of_length_eq_zero h
      subst he
      simp only [removeTracksFromPlaylist, if_pos rfl]
      rw [show sortEntriesByPosition [] = [] from rfl]
      rw [show chunkArray ([] : List TrackEntry) 100 = [] from by simp [chunkArray]]
      exact List.Forall₂.nil
    · simp only [removeTracksFromPlaylist, if_neg h]
      exact removeBatchesLoop_forall2 responses _ 0 snapshotId 0

/-- C5: `addTracksToPlaylist` never issues a write request with more than 100
URIs and `removeTracksFromPlaylist` never issues a delete request covering
more than 100 `(uri, position)` entries; every input element appears in
exactly one batch and the batches, concatenated in order, restore the input
(after the remove-side position sort). -/
theorem batch_size_invariant (uris : List String) (startingPosition : Option Int)
    (responses : Nat → String) (entries : List TrackEntry) (snapshotId : Option String)
    (responses2 : Nat → String) :
    ((addTracksToPlaylist uris startingPosition responses).requests.all
        (fun chunk => decide (chunk.length ≤ 100)) = true)
    ∧ (addTracksToPlaylist uris startingPosition responses).requests.flatten = uris
    ∧ ((removeTracksFromPlaylist entries snapshotId responses2).requests.all
        (fun req => decide ((req.tracks.map (fun p => p.2.length)).sum ≤ 100)) = true)
    ∧ (chunkArray (sortEntriesByPosition entries) 100).flatten
        = sortEntriesByPosition entries := by
  refine ⟨?_, ?_, ?_, chunkArray_flatten 99 (sortEntriesByPosition entries)⟩
  · by_cases h : uris.length = 0
    · have he : uris = [] := List.eq_nil_of_length_eq_zero h
      subst he
      rfl
    · simp only [addTracksToPlaylist, if_neg h]
      rw [addBatchesLoop_requests responses _ startingPosition none 0
        (chunkArray_ne_nil 99 uris)]
      rw [List.all_eq_true]
      intro c hc
      simpa using chunkArray_length_le 99 uris c hc
  · by_cases h : uris.length = 0
    · have he : uris = [] := List.eq_nil_of_length_eq_zero h
      subst he
      rfl
    · simp only [addTracksToPlaylist, if_neg h]
      rw [addBatchesLoop_requests responses _ startingPosition none 0
        (chunkArray_ne_nil 99 uris)]
      exact chunkArray_flatten 99 uris
  · by_cases h : entries.length = 0
    · have he : entries = [] := List.eq_nil_of_length_eq_zero h
      subst he
      rfl
    · simp only [removeTracksFromPlaylist, if_neg h]
      rw [List.all_eq_true]
      intro req hreq
      simpa using removeBatchesLoop_request_size responses2 _ 0 snapshotId 0
        (chunkArray_length_le 99 (sortEntriesByPosition entries)) req hreq

/-- C10: `removeTracksFromPlaylist` returns `removedCount` equal to the
number of input entries and `removedUris` equal as a multiset to the input
entries' URIs (possibly reordered by the per-batch URI grouping), independent
of the remote responses' contents. -/
theorem removeTracks_result_multiset (entries : List TrackEntry) (snapshotId : Option String)
    (responses responses2 : Nat → String) :
    (removeTracksFromPlaylist entries snapshotId responses).removedCount = entries.length
    ∧ ((removeTracksFromPlaylist entries snapshotId responses).removedUris).Perm
        (entries.map (fun e => e.uri))
    ∧ (removeTracksFromPlaylist entries snapshotId responses).removedUris
        = (removeTracksFromPlaylist entries snapshotId responses2).removedUris := by
  by_cases h : entries.length = 0
  · have he : entries = [] := List.eq_nil_of_length_eq_zero h
    subst he
    exact ⟨rfl, List.Perm.refl _, rfl⟩
  · have hperm : ((removeTracksFromPlaylist entries snapshotId responses).removedUris).Perm
        (entries.map (fun e => e.uri)) := by
      simp only [removeTracksFromPlaylist, if_neg h]
      refine (removeBatchesLoop_removedUris responses _ 0 snapshotId 0).trans ?_
      rw [chunkArray_flatten 99 (sortEntriesByPosition entries)]
      exact (List.perm_insertionSort entryLE entries).map _
    refine ⟨?_, hperm, ?_⟩
    · have hcount : (removeTracksFromPlaylist entries snapshotId responses).removedCount
          = (removeTracksFromPlaylist entries snapshotId responses).removedUris.length := by
        simp only [removeTracksFromPlaylist, if_neg h]
      rw [hcount, hperm.length_eq, List.length_map]
    · simp only [removeTracksFromPlaylist, if_neg h]
      exact removeBatchesLoop_removedUris_indep responses responses2 _ 0 snapshotId snapshotId 0 0

/-- Outcome of JavaScript's parsing of a `Retry-After` header value
(`Number(...)` / `Date.parse(...)` are abstracted into the three cases;
an absent or empty header is `none`). -/
inductive RetryAfterValue where
  | numeric (seconds : Int)
  | httpDate (epochMs : Int)
  | unparseable
deriving DecidableEq, Repr

/-- One remote HTTP response as observed by the fetcher loop: status,
status text, parsed `Retry-After` header, and the body (the JSON parse of a
success/error body is abstracted — the raw body string is carried). -/
structure HttpResponse where
  status : Nat
  statusText : String
  retryAfter : Option RetryAfterValue
  body : String
deriving DecidableEq, Repr

/-- `parseRetryAfterHeader` from `client.ts` (lines 140–161): absent header →
1000 ms; numeric value → `Math.max(1, Math.round(value * 1000))` (for the
integral seconds modelled here, `max 1 (seconds * 1000)`); HTTP-date →
`Math.max(1000, date - Date.now())`; unparseable → 1000 ms. -/
def parseRetryAfterHeader (retryAfter : Option RetryAfterValue) (nowMs : Int) : Int :=
  match retryAfter with
  | none => 1000
  | some (.numeric seconds) => max 1 (seconds * 1000)
  | some (.httpDate epochMs) => max 1000 (epochMs - nowMs)
  | some .unparseable => 1000

/-- `response.ok`: status in the 2xx range. -/
def statusOk (status : Nat) : Bool :=
  decide (200 ≤ status) && decide (status ≤ 299)

/-- What one fetcher call produces: a parsed success (204 yields no body) or
a typed `SpotifyApiError` carrying status, statusText and the
parsed-or-raw body. -/
inductive FetchResult where
  | success (body : Option String)
  | apiError (status : Nat) (statusText : String) (details : String)
deriving DecidableEq, Repr

/-- The non-429 tail of the fetch loop (`client.ts`, lines 107–121): any
other non-2xx response throws the typed error immediately; 204 returns no
content; otherwise the body is returned. -/
def handleFinalResponse (r : HttpResponse) : FetchResult :=
  if statusOk r.status = false then .apiError r.status r.statusText r.body
  else if r.status = 204 then .success none
  else .success (some r.body)

/-- Observable outcome of one fetcher invocation: the result, the `delay`
durations slept (in order), and the number of `fetch` calls made. -/
structure FetchOutcome where
  result : FetchResult
  sleeps : List Int
  calls : Nat
deriving DecidableEq, Repr

/-- The retry loop of `createSpotifyFetcher` (`client.ts`, lines 77–123),
with `maxRetries = 5`: iteration `attempt` observes `responses attempt`; a
429 response with `attempt >= 5` throws the typed error, a 429 below the cap
sleeps the `Retry-After`-derived duration and retries, and any other
response is handled by `handleFinalResponse`.  URL building and header
injection have no observable effect here and are omitted. -/
def createSpotifyFetcherLoop (responses : Nat → HttpResponse) (nowMs : Int)
    (attempt : Nat) : FetchOutcome :=
  let r := responses attempt
  if r.status = 429 then
    if h5 : 5 ≤ attempt then
      ⟨.apiError r.status r.statusText r.body, [], attempt + 1⟩
    else
      let retryAfterMs := parseRetryAfterHeader r.retryAfter nowMs
      let rest := createSpotifyFetcherLoop responses nowMs (attempt + 1)
      ⟨rest.result, retryAfterMs :: rest.sleeps, rest.calls⟩
  else
    ⟨handleFinalResponse r, [], attempt + 1⟩
termination_by 6 - attempt
decreasing_by omega

/-- One request through `createSpotifyFetcher`'s returned function, starting
at attempt 0. -/
def createSpotifyFetcher (responses : Nat → HttpResponse) (nowMs : Int) : FetchOutcome :=
  createSpotifyFetcherLoop responses nowMs 0

theorem fetchLoop_exhaust (responses : Nat → HttpResponse) (nowMs : Int) :
    ∀ (n attempt : Nat), attempt + n = 5 →
      (∀ i, attempt ≤ i → i ≤ 5 → (responses i).status = 429) →
      createSpotifyFetcherLoop responses nowMs attempt
        = ⟨.apiError (responses 5).status (responses 5).statusText (responses 5).body,
           (List.range' attempt n).map
             (fun i => parseRetryAfterHeader (responses i).retryAfter nowMs),
           6⟩ := by
  intro n
  induction n with
  | zero =>
    intro attempt heq hall
    have h5 : attempt = 5 := by omega
    subst h5
    rw [createSpotifyFetcherLoop]
    simp only [if_pos (hall 5 le_rfl le_rfl), dif_pos (le_refl 5)]
    rfl
  | succ n ih =>
    intro attempt heq hall
    have hlt : ¬ 5 ≤ attempt := by omega
    rw [createSpotifyFetcherLoop]
    simp only [if_pos (hall attempt le_rfl (by omega)), dif_neg hlt]
    rw [ih (attempt + 1) (by omega) (fun i hi h5 => hall i (by omega) h5)]
    rfl

theorem fetchLoop_leading429 (responses : Nat → HttpResponse) (nowMs : Int) :
    ∀ (k attempt : Nat), attempt + k ≤ 5 →
      (∀ i, attempt ≤ i → i < attempt + k → (responses i).status = 429) →
      (responses (attempt + k)).status ≠ 429 →
      createSpotifyFetcherLoop responses nowMs attempt
        = ⟨handleFinalResponse (responses (attempt + k)),
           (List.range' attempt k).map
             (fun i => parseRetryAfterHeader (responses i).retryAfter nowMs),
           attempt + k + 1⟩ := by
  intro k
  induction k with
  | zero =>
    intro attempt hle hall hne
    rw [createSpotifyFetcherLoop]
    simp only [Nat.add_zero] at hne
    simp only [if_neg hne]
    rfl
  | succ k ih =>
    intro attempt hle hall hne
    have h429 : (responses attempt).status = 429 := hall attempt le_rfl (by omega)
    have hlt : ¬ 5 ≤ attempt := by omega
    have harith : attempt + 1 + k = attempt + (k + 1) := by omega
    rw [createSpotifyFetcherLoop]
    simp only [if_pos h429, dif_neg hlt]
    rw [ih (attempt + 1) (by omega)
      (fun i hi hlt2 => hall i (by omega) (by omega))
      (by rw [harith]; exact hne)]
    rw [harith]
    rfl

/-- C4: an HTTP 429 response is retried after sleeping the
`Retry-After`-derived duration (numeric seconds converted to milliseconds,
HTTP-date interpreted relative to now, 1000 ms when absent or unparseable),
up to 5 retries, after which a typed error carrying status, statusText and
body is thrown; every other non-2xx response throws the same typed error
immediately, with no retry and no sleep. -/
theorem fetcher_rate_limit_retry (responses : Nat → HttpResponse) (nowMs : Int) :
    ((∀ i, i ≤ 5 → (responses i).status = 429) →
      createSpotifyFetcher responses nowMs
        = ⟨.apiError (responses 5).status (responses 5).statusText (responses 5).body,
           (List.range' 0 5).map
             (fun i => parseRetryAfterHeader (responses i).retryAfter nowMs),
           6⟩)
    ∧ (∀ k, k ≤ 5 → (∀ i, i < k → (responses i).status = 429) →
        (responses k).status ≠ 429 →
        createSpotifyFetcher responses nowMs
          = ⟨handleFinalResponse (responses k),
             (List.range' 0 k).map
               (fun i => parseRetryAfterHeader (responses i).retryAfter nowMs),
             k + 1⟩)
    ∧ (∀ r : HttpResponse, statusOk r.status = false →
        handleFinalResponse r = .apiError r.status r.statusText r.body)
    ∧ parseRetryAfterHeader none nowMs = 1000
    ∧ (∀ seconds : Int, 1 ≤ seconds →
        parseRetryAfterHeader (some (.numeric seconds)) nowMs = 1000 * seconds)
    ∧ (∀ epochMs : Int, parseRetryAfterHeader (some (.httpDate epochMs)) nowMs
        = max 1000 (epochMs - nowMs))
    ∧ parseRetryAfterHeader (some .unparseable) nowMs = 1000 := by
  refine ⟨?_, ?_, ?_, rfl, ?_, fun _ => rfl, rfl⟩
  · intro hall
    exact fetchLoop_exhaust responses nowMs 5 0 rfl (fun i _ h5 => hall i h5)
  · intro k hk hall hne
    have h := fetchLoop_leading429 responses nowMs k 0 (by omega)
      (fun i hi hlt => hall i (by omega)) (by simpa using hne)
    simpa using h
  · intro r h
    rw [handleFinalResponse, if_pos h]
  · intro seconds hs
    simp only [parseRetryAfterHeader]
    omega

/-- A remote that always answers 429 with `Retry-After: 2`. -/
def sampleRate429 : Nat → HttpResponse :=
  fun _ => ⟨429, "Too Many Requests", some (.numeric 2), "rate-limited"⟩

/-- A remote that answers 500 on the first call. -/
def sampleServerError : Nat → HttpResponse :=
  fun _ => ⟨500, "Server Error", none, "boom"⟩

/-- Witness for C4: six calls, five 2000 ms sleeps and a typed 429 error on
an always-429 remote; one call, no sleep and an immediate typed 500 error on
a failing remote. -/
theorem fetcher_rate_limit_retry_witness :
    (createSpotifyFetcher sampleRate429 0
      = ⟨.apiError 429 "Too Many Requests" "rate-limited",
         [2000, 2000, 2000, 2000, 2000], 6⟩)
    ∧ (createSpotifyFetcher sampleServerError 0
      = ⟨.apiError 500 "Server Error" "boom", [], 1⟩) := by
  constructor
  · rw [(fetcher_rate_limit_retry sampleRate429 0).1 (fun i _ => rfl)]
    decide
  · rw [(fetcher_rate_limit_retry sampleServerError 0).2.1 0 (by decide)
      (fun i hi => absurd hi (Nat.not_lt_zero i)) (by decide)]
    decide

/-- Witness for C3: on a concrete store, after two `setUndoEntry` calls the
first token no longer consumes. -/
theorem undo_single_slot_witness :
    (consumeUndoEntry (setUndoEntry (setUndoEntry (fun _ => none) "sess" "pl1"
        [⟨"spotify:track:X", 0⟩] none "tok1" 0).1 "sess" "pl2"
        [⟨"spotify:track:Y", 1⟩] none "tok2" 5).1 "sess" "pl1" "tok1").2 = none :=
  (undo_single_slot (fun _ => none) "sess" "pl1" "pl2" [⟨"spotify:track:X", 0⟩]
    [⟨"spotify:track:Y", 1⟩] none none "tok1" "tok2" 0 5 (by decide) (by decide)
    (by decide)).2.2.1
